import Mathlib

/-!
Shallow embedding of the socket.io chat server (`src/index.js`) together with
proofs about its specification.

The server keeps three JS `Map`s (`users`, `messageHistory`, `rateLimitMap`),
a set of transport-level room channels per socket, and reacts to inbound
socket.io events (`join`, `chat_message`, `private_message`, `typing`,
`change_room`, `disconnect`, `get_users`, `get_rooms`).  Each handler is
embedded as a pure state transformer returning the new server state and the
list of emitted outbound events.  JS `Map`s are modelled as association lists
with insertion-order iteration, matching JS `Map` semantics.  `Date.now()` is
modelled by threading an explicit `now : Nat` through the events.
-/

namespace ChatServer

/-- A JavaScript value as far as the sanitizer cares: either a string or
some non-string value (`undefined`, a number, an object, ...). -/
inductive JSVal where
  | str (s : String)
  | undef
deriving DecidableEq, Repr

/-! ### JS `Map` model: association lists with insertion-order semantics.
`set` overwrites in place (keeping the entry position) or appends,
`delete` removes the key's entry, `get` returns the value if present. -/

/-- `Map.prototype.get`, as an association-list lookup. -/
def mapGet {α : Type} : List (String × α) → String → Option α
  | [], _ => none
  | p :: rest, k => if p.1 = k then some p.2 else mapGet rest k

/-- `Map.prototype.set`: overwrite in place when the key exists, else append. -/
def mapSet {α : Type} : List (String × α) → String → α → List (String × α)
  | [], k, v => [(k, v)]
  | p :: rest, k, v => if p.1 = k then (k, v) :: rest else p :: mapSet rest k v

/-- `Map.prototype.delete`: remove the key's entry. -/
def mapDelete {α : Type} : List (String × α) → String → List (String × α)
  | [], _ => []
  | p :: rest, k => if p.1 = k then mapDelete rest k else p :: mapDelete rest k

/-! ### Input sanitizer (`sanitizeInput`, src/index.js lines 50-61). -/

/-- One `String.prototype.replace(/c/g, r)` pass for a single-character
pattern `c`: every occurrence of `c` is replaced by `r`. -/
def replaceAll (s : List Char) (c : Char) (r : List Char) : List Char :=
  (s.map (fun a => if a = c then r else [a])).flatten

/-- The six chained `.replace` calls of `sanitizeInput`, in source order:
`&`, `<`, `>`, `"`, `'` and `/`. -/
def sanitizeChars (s : List Char) : List Char :=
  replaceAll (replaceAll (replaceAll (replaceAll (replaceAll (replaceAll
    s '&' "&amp;".data) '<' "&lt;".data) '>' "&gt;".data)
    '"' "&quot;".data) '\x27' "&#x27;".data) '/' "&#x2F;".data

/-- `String.prototype.trim`: drop leading and trailing whitespace. -/
def trimChars (s : List Char) : List Char :=
  ((s.dropWhile Char.isWhitespace).reverse.dropWhile Char.isWhitespace).reverse

/-- `sanitizeInput` from the source: non-strings map to `""`; strings get the
six escape replacements, then `.trim()`, then `.substring(0, 500)`. -/
def sanitizeInput : JSVal → String
  | JSVal.str text => String.mk ((trimChars (sanitizeChars text.data)).take 500)
  | JSVal.undef => ""

/-- The sanitizer as the specification describes it: each HTML-significant
character (and `/`) is replaced by its character-reference equivalent in one
simultaneous pass, then the result is trimmed and truncated to 500. -/
def escapeChar (c : Char) : List Char :=
  if c = '&' then "&amp;".data
  else if c = '<' then "&lt;".data
  else if c = '>' then "&gt;".data
  else if c = '"' then "&quot;".data
  else if c = '\x27' then "&#x27;".data
  else if c = '/' then "&#x2F;".data
  else [c]

/-- Modelled from the spec's wording of §4.1 (simultaneous escaping, then
trim, then truncate); compared against `sanitizeInput` from the source. -/
def sanitizeSpec : JSVal → String
  | JSVal.str text => String.mk ((trimChars ((text.data.map escapeChar).flatten)).take 500)
  | JSVal.undef => ""

/-! ### Data model. -/

/-- A registered user: value stored in the `users` map (src/index.js 203-207). -/
structure User where
  username : String
  room : String
  socketId : String
deriving DecidableEq, Repr

/-- A `{username, socketId}` entry of a `users_list` payload. -/
structure UserInfo where
  username : String
  socketId : String
deriving DecidableEq, Repr

/-- A `{name, usersCount}` entry of a `rooms_list` payload. -/
structure RoomInfo where
  name : String
  usersCount : Nat
deriving DecidableEq, Repr

/-- A broadcast message object.  System notices carry no `username`/`socketId`
(those fields are absent in JS), hence the `Option`s. -/
structure Message where
  type : String
  username : Option String
  message : String
  timestamp : Nat
  room : Option String
  socketId : Option String
deriving DecidableEq, Repr

/-- A private message object (src/index.js 344-352); never stored in history. -/
structure PrivateMessage where
  type : String
  fromUsername : String
  toUsername : String
  message : String
  timestamp : Nat
  fromSocketId : String
  toSocketId : String
deriving DecidableEq, Repr

/-- Payload of an outbound emit. -/
inductive Payload where
  | msg (m : Message)
  | history (ms : List Message)
  | usersList (us : List UserInfo)
  | errorMsg (text : String)
  | joinSuccess (username room : String) (usersCount : Nat)
  | priv (p : PrivateMessage)
  | typingInfo (username : String) (isTyping : Bool)
  | roomChanged (room : String) (usersCount : Nat)
  | roomsList (rs : List RoomInfo)
deriving DecidableEq, Repr

/-- An outbound emit: unicast to a socket (`socket.emit` / `io.to(socketId)`),
multicast to a room (`io.to(room)`), or multicast excluding the sender
(`socket.to(room)`). -/
inductive Emit where
  | toSocket (sid : String) (event : String) (payload : Payload)
  | toRoom (room : String) (event : String) (payload : Payload)
  | toRoomExcept (room : String) (sender : String) (event : String) (payload : Payload)
deriving DecidableEq, Repr

/-- The socket.io event name of an emit. -/
def eventOf : Emit → String
  | Emit.toSocket _ ev _ => ev
  | Emit.toRoom _ ev _ => ev
  | Emit.toRoomExcept _ _ ev _ => ev

/-- Whether an emit is a multicast targeted at the given room. -/
def targetsRoom : Emit → String → Bool
  | Emit.toRoom r _ _, room => r = room
  | Emit.toRoomExcept r _ _ _, room => r = room
  | Emit.toSocket _ _ _, _ => false

/-- The whole server state: the three global `Map`s plus the transport-level
room-channel membership relation maintained by `socket.join`/`socket.leave`. -/
structure ServerState where
  users : List (String × User)
  messageHistory : List (String × List Message)
  rateLimitMap : List (String × List Nat)
  channels : List (String × String)
deriving DecidableEq, Repr

/-- State at server start: all three maps empty, no channel membership. -/
def initialState : ServerState := ⟨[], [], [], []⟩

/-! ### Rate limiter (src/index.js lines 37-38, 68-92). -/

def RATE_LIMIT_MAX : Nat := 10

def RATE_LIMIT_WINDOW : Nat := 10000

/-- The stored rate window of a connection (`rateLimitMap.get(socketId) || []`). -/
def windowOf (st : ServerState) (socketId : String) : List Nat :=
  (mapGet st.rateLimitMap socketId).getD []

/-- `isRateLimited`: filter out timestamps older than the window, store the
filtered list back, and report whether the surviving count reaches the max.
Returns the verdict together with the updated state (the JS function mutates
`rateLimitMap` as a side effect). -/
def isRateLimited (st : ServerState) (socketId : String) (now : Nat) : Bool × ServerState :=
  let timestamps := (mapGet st.rateLimitMap socketId).getD []
  let recentTimestamps := timestamps.filter (fun time => now - time < RATE_LIMIT_WINDOW)
  (decide (RATE_LIMIT_MAX ≤ recentTimestamps.length),
   { st with rateLimitMap := mapSet st.rateLimitMap socketId recentTimestamps })

/-- `addRateLimitTimestamp`: push the current time onto the stored window. -/
def addRateLimitTimestamp (st : ServerState) (socketId : String) (now : Nat) : ServerState :=
  let timestamps := (mapGet st.rateLimitMap socketId).getD []
  { st with rateLimitMap := mapSet st.rateLimitMap socketId (timestamps ++ [now]) }

/-! ### Presence registry helpers (src/index.js lines 99-125). -/

/-- `getUsersInRoom`: linear scan over the `users` map in iteration order. -/
def getUsersInRoom (st : ServerState) (room : String) : List UserInfo :=
  (st.users.filter (fun p => p.2.room = room)).map (fun p => ⟨p.2.username, p.1⟩)

/-- `isUsernameAvailable`: `true` iff no registered user has this username in
this room. -/
def isUsernameAvailable (st : ServerState) (username room : String) : Bool :=
  st.users.all (fun p => !(p.2.username = username && p.2.room = room))

/-! ### Room history store (src/index.js lines 132-151). -/

/-- `getMessageHistory`: the room's buffer, or `[]` for an unknown room. -/
def getMessageHistory (st : ServerState) (room : String) : List Message :=
  (mapGet st.messageHistory room).getD []

/-- `addMessageToHistory`: create the buffer on first use, evict the oldest
entry (`shift`) when the buffer already holds 100 messages, then `push`. -/
def addMessageToHistory (st : ServerState) (room : String) (message : Message) : ServerState :=
  let history := (mapGet st.messageHistory room).getD []
  let trimmed := if 100 ≤ history.length then history.tail else history
  { st with messageHistory := mapSet st.messageHistory room (trimmed ++ [message]) }

/-! ### Transport room channels (socket.io `socket.join` / `socket.leave`). -/

/-- Whether a socket is currently a member of a room channel. -/
def channelMember (chs : List (String × String)) (sid room : String) : Bool :=
  chs.any (fun p => p.1 = sid && p.2 = room)

/-- `socket.join(room)`: add the membership pair if not already present. -/
def channelJoin (chs : List (String × String)) (sid room : String) : List (String × String) :=
  if channelMember chs sid room then chs else chs ++ [(sid, room)]

/-- `socket.leave(room)`: remove the membership pair. -/
def channelLeave (chs : List (String × String)) (sid room : String) : List (String × String) :=
  chs.filter (fun p => !(p.1 = sid && p.2 = room))

/-- socket.io removes a disconnected socket from all of its rooms. -/
def channelClear (chs : List (String × String)) (sid : String) : List (String × String) :=
  chs.filter (fun p => !(p.1 = sid))

/-! ### Event handlers (src/index.js lines 167-527). -/

/-- `sanitizeInput(data.room) || "general"`: an empty sanitized room name
defaults to `"general"`. -/
def defaultRoom (room : String) : String :=
  if room = "" then "general" else room

/-- Error text of the too-short-username rejection. -/
def errUsernameTooShort : String :=
  "Le nom d\x27utilisateur doit contenir au moins 2 caractères"

/-- Error text of the username-taken rejection. -/
def errUsernameTaken : String :=
  "Ce nom d\x27utilisateur est déjà pris dans cette salle"

/-- Error text of the not-joined rejection. -/
def errMustJoin : String :=
  "Vous devez d\x27abord rejoindre un salon"

/-- Error text of the rate-limit rejection. -/
def errRateLimited : String :=
  "Vous envoyez trop de messages. Veuillez patienter."

/-- Error text of the unknown-recipient rejection. -/
def errRecipientNotFound : String :=
  "Destinataire introuvable"

/-- The `join` handler (src/index.js 177-241): sanitize both fields, reject a
username shorter than 2 characters or one already taken in the target room;
on success join the room channel, register the user, and emit the room
history, a system join notice, the updated user list and a confirmation. -/
def joinHandler (st : ServerState) (sid : String) (dataUsername dataRoom : JSVal)
    (now : Nat) : ServerState × List Emit :=
  let username := sanitizeInput dataUsername
  let room := defaultRoom (sanitizeInput dataRoom)
  if username = "" ∨ username.length < 2 then
    (st, [Emit.toSocket sid "error" (Payload.errorMsg errUsernameTooShort)])
  else if !(isUsernameAvailable st username room) then
    (st, [Emit.toSocket sid "error" (Payload.errorMsg errUsernameTaken)])
  else
    let st2 : ServerState := { st with
      channels := channelJoin st.channels sid room,
      users := mapSet st.users sid ⟨username, room, sid⟩ }
    let history := getMessageHistory st2 room
    let joinMessage : Message :=
      ⟨"system", none, username ++ " a rejoint le chat", now, some room, none⟩
    let usersInRoom := getUsersInRoom st2 room
    (st2, [Emit.toSocket sid "message_history" (Payload.history history),
           Emit.toRoom room "user_joined" (Payload.msg joinMessage),
           Emit.toRoom room "users_list" (Payload.usersList usersInRoom),
           Emit.toSocket sid "join_success"
             (Payload.joinSuccess username room usersInRoom.length)])

/-- The `chat_message` handler (src/index.js 250-302): require a registered
user, then a pass of the rate limiter; drop silently when the sanitized text
is empty; otherwise record the attempt, build the message object, append it
to the room history and broadcast it to the room. -/
def chatMessageHandler (st : ServerState) (sid : String) (dataMessage : JSVal)
    (now : Nat) : ServerState × List Emit :=
  match mapGet st.users sid with
  | none => (st, [Emit.toSocket sid "error" (Payload.errorMsg errMustJoin)])
  | some user =>
    let checked := isRateLimited st sid now
    if checked.1 then
      (checked.2, [Emit.toSocket sid "error" (Payload.errorMsg errRateLimited)])
    else
      let message := sanitizeInput dataMessage
      if message = "" then
        (checked.2, [])
      else
        let st2 := addRateLimitTimestamp checked.2 sid now
        let messageObject : Message :=
          ⟨"user", some user.username, message, now, some user.room, some sid⟩
        let st3 := addMessageToHistory st2 user.room messageObject
        (st3, [Emit.toRoom user.room "received_message" (Payload.msg messageObject)])

/-- The `private_message` handler (src/index.js 310-368): require a sender and
a resolvable recipient, pass the (shared) rate limiter, then emit the private
message to the recipient and echo it to the sender; nothing enters history. -/
def privateMessageHandler (st : ServerState) (sid : String) (dataMessage : JSVal)
    (targetSocketId : String) (now : Nat) : ServerState × List Emit :=
  match mapGet st.users sid with
  | none => (st, [Emit.toSocket sid "error" (Payload.errorMsg errMustJoin)])
  | some sender =>
    let message := sanitizeInput dataMessage
    match mapGet st.users targetSocketId with
    | none => (st, [Emit.toSocket sid "error" (Payload.errorMsg errRecipientNotFound)])
    | some recipient =>
      let checked := isRateLimited st sid now
      if checked.1 then
        (checked.2, [Emit.toSocket sid "error" (Payload.errorMsg errRateLimited)])
      else
        let st2 := addRateLimitTimestamp checked.2 sid now
        let privateMessage : PrivateMessage :=
          ⟨"private", sender.username, recipient.username, message, now, sid, targetSocketId⟩
        (st2, [Emit.toSocket targetSocketId "private_message_received" (Payload.priv privateMessage),
               Emit.toSocket sid "private_message_sent" (Payload.priv privateMessage)])

/-- The `typing` handler (src/index.js 376-385): silently no-op when not
joined, else notify every other member of the user's room. -/
def typingHandler (st : ServerState) (sid : String) (isTyping : Bool) :
    ServerState × List Emit :=
  match mapGet st.users sid with
  | none => (st, [])
  | some user =>
    (st, [Emit.toRoomExcept user.room sid "user_typing"
            (Payload.typingInfo user.username isTyping)])

/-- The `change_room` handler (src/index.js 393-452): silently no-op when not
joined or when the (defaulted) target equals the current room; otherwise
leave the old channel, notify the old room, join the new channel, mutate the
user's room, and replay the new room's history plus notices.  Note: no
username-availability check is performed for the destination room. -/
def changeRoomHandler (st : ServerState) (sid : String) (dataRoom : JSVal)
    (now : Nat) : ServerState × List Emit :=
  match mapGet st.users sid with
  | none => (st, [])
  | some user =>
    let newRoom := defaultRoom (sanitizeInput dataRoom)
    let oldRoom := user.room
    if oldRoom = newRoom then (st, [])
    else
      let st1 : ServerState := { st with channels := channelLeave st.channels sid oldRoom }
      let leftMsg : Message :=
        ⟨"system", none, user.username ++ " a quitté la salle", now, some oldRoom, none⟩
      let oldRoomList := getUsersInRoom st1 oldRoom
      let st2 : ServerState := { st1 with
        channels := channelJoin st1.channels sid newRoom,
        users := mapSet st1.users sid { user with room := newRoom } }
      let joinedMsg : Message :=
        ⟨"system", none, user.username ++ " a rejoint la salle", now, some newRoom, none⟩
      let newRoomList := getUsersInRoom st2 newRoom
      (st2, [Emit.toRoom oldRoom "user_left" (Payload.msg leftMsg),
             Emit.toRoom oldRoom "users_list" (Payload.usersList oldRoomList),
             Emit.toSocket sid "message_history" (Payload.history (getMessageHistory st2 newRoom)),
             Emit.toRoom newRoom "user_joined" (Payload.msg joinedMsg),
             Emit.toRoom newRoom "users_list" (Payload.usersList newRoomList),
             Emit.toSocket sid "room_changed"
               (Payload.roomChanged newRoom newRoomList.length)])

/-- The `disconnect` handler (src/index.js 461-487): when a user exists,
notify their room, delete the user, and broadcast the updated user list;
unconditionally delete the rate window.  The transport removes the socket
from all of its room channels. -/
def disconnectHandler (st : ServerState) (sid : String) (now : Nat) :
    ServerState × List Emit :=
  match mapGet st.users sid with
  | some user =>
    let leftMsg : Message :=
      ⟨"system", none, user.username ++ " a quitté le chat", now, some user.room, none⟩
    let st1 : ServerState := { st with users := mapDelete st.users sid }
    let usersInRoom := getUsersInRoom st1 user.room
    let st2 : ServerState := { st1 with
      rateLimitMap := mapDelete st1.rateLimitMap sid,
      channels := channelClear st1.channels sid }
    (st2, [Emit.toRoom user.room "user_left" (Payload.msg leftMsg),
           Emit.toRoom user.room "users_list" (Payload.usersList usersInRoom)])
  | none =>
    ({ st with
        rateLimitMap := mapDelete st.rateLimitMap sid,
        channels := channelClear st.channels sid }, [])

/-- The `get_users` handler (src/index.js 495-501). -/
def getUsersHandler (st : ServerState) (sid : String) : ServerState × List Emit :=
  match mapGet st.users sid with
  | none => (st, [])
  | some user =>
    (st, [Emit.toSocket sid "users_list" (Payload.usersList (getUsersInRoom st user.room))])

/-- The `get_rooms` handler (src/index.js 509-527): count users per room in
registry iteration order and emit the directory. -/
def getRoomsHandler (st : ServerState) (sid : String) : ServerState × List Emit :=
  let rooms := st.users.foldl
    (fun (m : List (String × Nat)) p =>
      match mapGet m p.2.room with
      | none => mapSet m p.2.room 1
      | some n => mapSet m p.2.room (n + 1)) []
  (st, [Emit.toSocket sid "rooms_list"
          (Payload.roomsList (rooms.map (fun p => ⟨p.1, p.2⟩)))])

/-- An inbound event, carrying the socket it arrives on and the value of
`Date.now()` at processing time where the handler reads the clock. -/
inductive Event where
  | join (sid : String) (username room : JSVal) (now : Nat)
  | chat_message (sid : String) (message : JSVal) (now : Nat)
  | private_message (sid : String) (message : JSVal) (targetSocketId : String) (now : Nat)
  | typing (sid : String) (isTyping : Bool)
  | change_room (sid : String) (room : JSVal) (now : Nat)
  | disconnect (sid : String) (now : Nat)
  | get_users (sid : String)
  | get_rooms (sid : String)
deriving DecidableEq, Repr

/-- Dispatch one inbound event to its handler. -/
def step (st : ServerState) : Event → ServerState × List Emit
  | Event.join sid username room now => joinHandler st sid username room now
  | Event.chat_message sid message now => chatMessageHandler st sid message now
  | Event.private_message sid message target now => privateMessageHandler st sid message target now
  | Event.typing sid isTyping => typingHandler st sid isTyping
  | Event.change_room sid room now => changeRoomHandler st sid room now
  | Event.disconnect sid now => disconnectHandler st sid now
  | Event.get_users sid => getUsersHandler st sid
  | Event.get_rooms sid => getRoomsHandler st sid

/-- Run a sequence of inbound events, discarding the emitted outputs. -/
def runEvents (st : ServerState) (es : List Event) : ServerState :=
  es.foldl (fun s e => (step s e).1) st

/-- Whether an event is a `change_room` event. -/
def Event.isChangeRoom : Event → Bool
  | Event.change_room _ _ _ => true
  | _ => false

/-! ### Lemmas about the `Map` model. -/

theorem mapGet_mapSet_self {α : Type} (m : List (String × α)) (k : String) (v : α) :
    mapGet (mapSet m k v) k = some v := by
  induction m with
  | nil => simp [mapGet, mapSet]
  | cons p rest ih =>
    by_cases h : p.1 = k
    · simp [mapGet, mapSet, h]
    · simp [mapGet, mapSet, h, ih]

theorem mapGet_mapSet_ne {α : Type} (m : List (String × α)) (k k' : String) (v : α)
    (h : k' ≠ k) : mapGet (mapSet m k v) k' = mapGet m k' := by
  induction m with
  | nil => simp [mapGet, mapSet, Ne.symm h]
  | cons p rest ih =>
    by_cases hp : p.1 = k
    · have hp' : p.1 ≠ k' := by rw [hp]; exact Ne.symm h
      simp [mapGet, mapSet, hp, hp', Ne.symm h]
    · simp [mapGet, mapSet, hp, ih]

theorem mem_mapSet {α : Type} (p : String × α) (m : List (String × α)) (k : String) (v : α)
    (h : p ∈ mapSet m k v) : p = (k, v) ∨ p ∈ m := by
  induction m with
  | nil =>
    simp only [mapSet, List.mem_singleton] at h
    exact Or.inl h
  | cons q rest ih =>
    by_cases hq : q.1 = k
    · simp only [mapSet, if_pos hq, List.mem_cons] at h
      rcases h with h | h
      · exact Or.inl h
      · exact Or.inr (List.mem_cons_of_mem _ h)
    · simp only [mapSet, if_neg hq, List.mem_cons] at h
      rcases h with h | h
      · exact Or.inr (h ▸ List.mem_cons_self _ _)
      · rcases ih h with h' | h'
        · exact Or.inl h'
        · exact Or.inr (List.mem_cons_of_mem _ h')

theorem mem_mapDelete {α : Type} (p : String × α) (m : List (String × α)) (k : String)
    (h : p ∈ mapDelete m k) : p ∈ m := by
  induction m with
  | nil => simp [mapDelete] at h
  | cons q rest ih =>
    by_cases hq : q.1 = k
    · simp only [mapDelete, if_pos hq] at h
      exact List.mem_cons_of_mem _ (ih h)
    · simp only [mapDelete, if_neg hq, List.mem_cons] at h
      rcases h with h | h
      · exact h ▸ List.mem_cons_self _ _
      · exact List.mem_cons_of_mem _ (ih h)

theorem mapGet_mapDelete_self {α : Type} (m : List (String × α)) (k : String) :
    mapGet (mapDelete m k) k = none := by
  induction m with
  | nil => simp [mapGet, mapDelete]
  | cons p rest ih =>
    by_cases hp : p.1 = k
    · simp [mapDelete, hp, ih]
    · simp [mapDelete, mapGet, hp, ih]

theorem mapDelete_idem {α : Type} (m : List (String × α)) (k : String) :
    mapDelete (mapDelete m k) k = mapDelete m k := by
  induction m with
  | nil => simp [mapDelete]
  | cons p rest ih =>
    by_cases hp : p.1 = k
    · simp [mapDelete, hp, ih]
    · simp [mapDelete, hp, ih]

theorem mapDelete_of_mapGet_none {α : Type} (m : List (String × α)) (k : String)
    (h : mapGet m k = none) : mapDelete m k = m := by
  induction m with
  | nil => simp [mapDelete]
  | cons p rest ih =>
    by_cases hp : p.1 = k
    · simp [mapGet, hp] at h
    · simp only [mapGet, if_neg hp] at h
      simp [mapDelete, hp, ih h]

/-! ### The sanitizer agrees with its specification (claim C4). -/

theorem replaceAll_append (x y : List Char) (c : Char) (r : List Char) :
    replaceAll (x ++ y) c r = replaceAll x c r ++ replaceAll y c r := by
  simp [replaceAll]

theorem sanitizeChars_append (x y : List Char) :
    sanitizeChars (x ++ y) = sanitizeChars x ++ sanitizeChars y := by
  simp [sanitizeChars, replaceAll_append]

theorem replaceAll_singleton (a c : Char) (r : List Char) :
    replaceAll [a] c r = if a = c then r else [a] := by
  by_cases h : a = c <;> simp [replaceAll, h]

theorem sanitizeChars_singleton (a : Char) : sanitizeChars [a] = escapeChar a := by
  by_cases h1 : a = '&'
  · subst h1; decide
  · by_cases h2 : a = '<'
    · subst h2; decide
    · by_cases h3 : a = '>'
      · subst h3; decide
      · by_cases h4 : a = '"'
        · subst h4; decide
        · by_cases h5 : a = '\x27'
          · subst h5; decide
          · by_cases h6 : a = '/'
            · subst h6; decide
            · simp [sanitizeChars, replaceAll_singleton, escapeChar,
                h1, h2, h3, h4, h5, h6]

theorem sanitizeChars_eq_escape (s : List Char) :
    sanitizeChars s = (s.map escapeChar).flatten := by
  induction s with
  | nil => rfl
  | cons a s ih =>
    have hsplit : a :: s = [a] ++ s := rfl
    rw [hsplit, sanitizeChars_append, sanitizeChars_singleton, ih]
    simp

/-- C4: `sanitizeInput` is total and pure by construction; on non-string
input it returns the empty string; on strings it equals the specification's
description (each of `&`, `<`, `>`, `"`, `'`, `/` replaced by its character
reference, then trimmed, then truncated to 500 characters), and its result
never exceeds 500 characters. -/
theorem sanitizeInput_matches_spec (v : JSVal) :
    sanitizeInput v = sanitizeSpec v ∧
    (sanitizeInput v).length ≤ 500 ∧
    sanitizeInput JSVal.undef = "" := by
  refine ⟨?_, ?_, rfl⟩
  · cases v with
    | undef => rfl
    | str text => simp [sanitizeInput, sanitizeSpec, sanitizeChars_eq_escape]
  · cases v with
    | undef => simp [sanitizeInput]
    | str text =>
      show (String.mk ((trimChars (sanitizeChars text.data)).take 500)).length ≤ 500
      have : (String.mk ((trimChars (sanitizeChars text.data)).take 500)).length
          = ((trimChars (sanitizeChars text.data)).take 500).length := rfl
      rw [this, List.length_take]
      exact min_le_left _ _

/-! ### The history store keeps exactly the last 100 messages (claim C2). -/

/-- The last `min 100 l.length` elements of `l`, in order: the FIFO window
the spec describes. -/
def lastMessages (l : List Message) : List Message :=
  l.drop (l.length - 100)

/-- Pushing onto a saturated-window buffer keeps it equal to the last-100
window of the full append sequence. -/
theorem lastMessages_push (l : List Message) (m : Message) :
    (if 100 ≤ (lastMessages l).length then (lastMessages l).tail else lastMessages l) ++ [m]
      = lastMessages (l ++ [m]) := by
  by_cases h : 100 ≤ l.length
  · have hlen : (lastMessages l).length = 100 := by
      simp only [lastMessages, List.length_drop]
      omega
    rw [if_pos (le_of_eq hlen.symm)]
    have htail : (lastMessages l).tail = l.drop (l.length - 100 + 1) := by
      simp [lastMessages, List.tail_drop]
    have harith : l.length + 1 - 100 = l.length - 100 + 1 := by omega
    have hle : l.length - 100 + 1 ≤ l.length := by omega
    simp only [lastMessages, List.length_append, List.length_singleton, htail, harith,
      List.drop_append_of_le_length hle]
    rw [List.tail_drop]
  · have h0 : l.length - 100 = 0 := by omega
    have h1 : l.length + 1 - 100 = 0 := by omega
    have hlen : (lastMessages l).length = l.length := by
      simp [lastMessages, h0]
    rw [if_neg (by omega)]
    simp [lastMessages, h0, h1]

/-- Appending a batch of `(room, message)` pairs through `addMessageToHistory`. -/
def appendAll (st : ServerState) (appends : List (String × Message)) : ServerState :=
  appends.foldl (fun s p => addMessageToHistory s p.1 p.2) st

theorem getMessageHistory_add_self (st : ServerState) (room : String) (m : Message) :
    getMessageHistory (addMessageToHistory st room m) room
      = (if 100 ≤ (getMessageHistory st room).length
          then (getMessageHistory st room).tail else getMessageHistory st room) ++ [m] := by
  simp [addMessageToHistory, getMessageHistory, mapGet_mapSet_self]

theorem getMessageHistory_add_ne (st : ServerState) (room R : String) (m : Message)
    (h : R ≠ room) :
    getMessageHistory (addMessageToHistory st room m) R = getMessageHistory st R := by
  simp [addMessageToHistory, getMessageHistory, mapGet_mapSet_ne _ _ _ _ h]

theorem appendAll_lastMessages (appends : List (String × Message)) :
    ∀ (st : ServerState) (f : String → List Message),
      (∀ R, getMessageHistory st R = lastMessages (f R)) →
      ∀ R, getMessageHistory (appendAll st appends) R
        = lastMessages (f R ++ (appends.filter (fun p => p.1 = R)).map Prod.snd) := by
  induction appends with
  | nil =>
    intro st f hf R
    simpa [appendAll] using hf R
  | cons q rest ih =>
    obtain ⟨qr, qm⟩ := q
    intro st f hf R
    have hstep : ∀ R', getMessageHistory (addMessageToHistory st qr qm) R'
        = lastMessages ((fun R' => if qr = R' then f R' ++ [qm] else f R') R') := by
      intro R'
      by_cases hR : qr = R'
      · subst hR
        have hbeta : (fun R' => if qr = R' then f R' ++ [qm] else f R') qr
            = f qr ++ [qm] := by simp
        rw [hbeta, getMessageHistory_add_self, hf qr, lastMessages_push]
      · have hbeta : (fun R' => if qr = R' then f R' ++ [qm] else f R') R' = f R' := by
          simp [hR]
        rw [hbeta, getMessageHistory_add_ne _ _ _ _ (fun hh => hR hh.symm), hf R']
    have happ : appendAll st ((qr, qm) :: rest)
        = appendAll (addMessageToHistory st qr qm) rest := rfl
    rw [happ, ih _ _ hstep R]
    by_cases hR : qr = R
    · subst hR
      rw [if_pos rfl]
      simp [List.filter_cons, List.append_assoc]
    · rw [if_neg hR]
      simp [List.filter_cons, hR]

/-- C2: after any sequence of appends starting from the empty store, a room's
history is exactly the last `min 100 n` of the `n` messages appended to that
room, in append order; it never exceeds 100 messages; and an unknown room
yields the empty list, never a missing result. -/
theorem getMessageHistory_last_hundred (appends : List (String × Message)) (R : String) :
    getMessageHistory (appendAll initialState appends) R
      = lastMessages ((appends.filter (fun p => p.1 = R)).map Prod.snd) ∧
    (getMessageHistory (appendAll initialState appends) R).length ≤ 100 ∧
    getMessageHistory initialState R = [] := by
  have hbase : ∀ R', getMessageHistory initialState R' = lastMessages ([]) := by
    intro R'
    simp [getMessageHistory, initialState, mapGet, lastMessages]
  have hmain := appendAll_lastMessages appends initialState (fun _ => []) hbase R
  simp only [List.nil_append] at hmain
  refine ⟨hmain, ?_, hbase R⟩
  rw [hmain]
  simp only [lastMessages, List.length_drop]
  omega

/-! ### The rate limiter admits at most 10 attempts per window (claim C3). -/

/-- Membership of a timestamp in the rolling window `[T, T + 10000)`. -/
def inWin (T a : Nat) : Bool :=
  decide (T ≤ a) && decide (a < T + RATE_LIMIT_WINDOW)

/-- One check-then-record step of the limiter, acting on a single stored
window: filter to the recent timestamps, report limited when already at the
max, and record the new attempt otherwise. -/
def rateStepW (w : List Nat) (now : Nat) : Bool × List Nat :=
  let recent := w.filter (fun time => now - time < RATE_LIMIT_WINDOW)
  if RATE_LIMIT_MAX ≤ recent.length then (true, recent) else (false, recent ++ [now])

/-- The admitted (not limited) attempt times of a run of check-then-record
steps over a single stored window. -/
def rateRunW : List Nat → List Nat → List Nat
  | _, [] => []
  | w, now :: ts =>
    let s := rateStepW w now
    if s.1 then rateRunW s.2 ts else now :: rateRunW s.2 ts

/-- One check-then-record step against the server state, exactly as the
`chat_message` handler uses the limiter: `isRateLimited` first, and only when
not limited, `addRateLimitTimestamp`. -/
def rateLimitAttempt (st : ServerState) (sid : String) (now : Nat) : Bool × ServerState :=
  let checked := isRateLimited st sid now
  if checked.1 then (true, checked.2) else (false, addRateLimitTimestamp checked.2 sid now)

/-- The admitted attempt times of a run of check-then-record steps against
the server state. -/
def rateRun : ServerState → String → List Nat → List Nat
  | _, _, [] => []
  | st, sid, now :: ts =>
    let a := rateLimitAttempt st sid now
    if a.1 then rateRun a.2 sid ts else now :: rateRun a.2 sid ts

theorem isRateLimited_fst (st : ServerState) (sid : String) (now : Nat) :
    (isRateLimited st sid now).1
      = decide (RATE_LIMIT_MAX ≤
          ((windowOf st sid).filter (fun time => now - time < RATE_LIMIT_WINDOW)).length) := rfl

theorem windowOf_isRateLimited (st : ServerState) (sid : String) (now : Nat) :
    windowOf (isRateLimited st sid now).2 sid
      = (windowOf st sid).filter (fun time => now - time < RATE_LIMIT_WINDOW) := by
  simp [isRateLimited, windowOf, mapGet_mapSet_self]

theorem windowOf_addRateLimitTimestamp (st : ServerState) (sid : String) (now : Nat) :
    windowOf (addRateLimitTimestamp st sid now) sid = windowOf st sid ++ [now] := by
  simp [addRateLimitTimestamp, windowOf, mapGet_mapSet_self]

theorem rateLimitAttempt_fst (st : ServerState) (sid : String) (now : Nat) :
    (rateLimitAttempt st sid now).1 = (rateStepW (windowOf st sid) now).1 := by
  unfold rateLimitAttempt rateStepW
  simp only [isRateLimited_fst, windowOf]
  by_cases h : RATE_LIMIT_MAX ≤
      (((mapGet st.rateLimitMap sid).getD []).filter
        (fun time => now - time < RATE_LIMIT_WINDOW)).length
  · simp [h]
  · simp [h]

theorem rateLimitAttempt_window (st : ServerState) (sid : String) (now : Nat) :
    windowOf (rateLimitAttempt st sid now).2 sid = (rateStepW (windowOf st sid) now).2 := by
  unfold rateLimitAttempt rateStepW
  simp only [isRateLimited_fst]
  by_cases h : RATE_LIMIT_MAX ≤
      ((windowOf st sid).filter (fun time => now - time < RATE_LIMIT_WINDOW)).length
  · simp [h, windowOf_isRateLimited]
  · simp [h, windowOf_addRateLimitTimestamp, windowOf_isRateLimited]

theorem rateRun_eq_rateRunW (ts : List Nat) :
    ∀ (st : ServerState) (sid : String),
      rateRun st sid ts = rateRunW (windowOf st sid) ts := by
  induction ts with
  | nil => intro st sid; rfl
  | cons t ts ih =>
    intro st sid
    show (if (rateLimitAttempt st sid t).1 then rateRun (rateLimitAttempt st sid t).2 sid ts
          else t :: rateRun (rateLimitAttempt st sid t).2 sid ts)
        = (if (rateStepW (windowOf st sid) t).1
              then rateRunW (rateStepW (windowOf st sid) t).2 ts
           else t :: rateRunW (rateStepW (windowOf st sid) t).2 ts)
    rw [rateLimitAttempt_fst st sid t, ih (rateLimitAttempt st sid t).2 sid,
      rateLimitAttempt_window]

theorem rateRunW_cons_limited {w : List Nat} {t : Nat} {ts : List Nat}
    (h : RATE_LIMIT_MAX ≤ (w.filter (fun time => t - time < RATE_LIMIT_WINDOW)).length) :
    rateRunW w (t :: ts)
      = rateRunW (w.filter (fun time => t - time < RATE_LIMIT_WINDOW)) ts := by
  simp [rateRunW, rateStepW, h]

theorem rateRunW_cons_admitted {w : List Nat} {t : Nat} {ts : List Nat}
    (h : ¬ RATE_LIMIT_MAX ≤ (w.filter (fun time => t - time < RATE_LIMIT_WINDOW)).length) :
    rateRunW w (t :: ts)
      = t :: rateRunW ((w.filter (fun time => t - time < RATE_LIMIT_WINDOW)) ++ [t]) ts := by
  simp [rateRunW, rateStepW, h]

theorem rateRunW_subset : ∀ (ts w : List Nat) (x : Nat), x ∈ rateRunW w ts → x ∈ ts := by
  intro ts
  induction ts with
  | nil =>
    intro w x hx
    simp [rateRunW] at hx
  | cons t ts ih =>
    intro w x hx
    by_cases h : RATE_LIMIT_MAX ≤ (w.filter (fun time => t - time < RATE_LIMIT_WINDOW)).length
    · rw [rateRunW_cons_limited h] at hx
      exact List.mem_cons_of_mem _ (ih _ _ hx)
    · rw [rateRunW_cons_admitted h] at hx
      rcases List.mem_cons.mp hx with hx | hx
      · exact hx ▸ List.mem_cons_self _ _
      · exact List.mem_cons_of_mem _ (ih _ _ hx)

theorem rateRunW_countP_zero (ts w : List Nat) (T : Nat)
    (h : ∀ t ∈ ts, T + RATE_LIMIT_WINDOW ≤ t) :
    (rateRunW w ts).countP (inWin T) = 0 := by
  rw [List.countP_eq_zero]
  intro a ha
  have hts := h a (rateRunW_subset ts w a ha)
  simp only [inWin, Bool.and_eq_true, decide_eq_true_eq, not_and]
  intro _
  omega

theorem countP_filter_lt_exists {w : List Nat} {p q : Nat → Bool}
    (h : (w.filter q).countP p < w.countP p) :
    ∃ a ∈ w, p a = true ∧ q a = false := by
  by_contra hc
  push_neg at hc
  have heq : (w.filter q).countP p = w.countP p := by
    rw [List.countP_filter]
    apply List.countP_congr
    intro x hx
    by_cases hp : p x = true
    · have hq : q x = true := Bool.ne_false_iff.mp (hc x hx hp)
      simp [hp, hq]
    · have hp' : p x = false := by
        cases hpx : p x
        · rfl
        · exact absurd hpx hp
      simp [hp']
  omega

/-- Core sliding-window bound: starting from any stored window whose entries
precede all the (time-ordered) attempt times, the number of admitted attempts
falling in any fixed window `[T, T + 10000)` never pushes the total count in
that window above `max 10 (initial count)`. -/
theorem rateRunW_window_bound : ∀ (ts w : List Nat) (T : Nat),
    (∀ a ∈ w, ∀ t ∈ ts, a ≤ t) → List.Sorted (· ≤ ·) ts →
    w.countP (inWin T) + (rateRunW w ts).countP (inWin T)
      ≤ max RATE_LIMIT_MAX (w.countP (inWin T)) := by
  intro ts
  induction ts with
  | nil =>
    intro w T _ _
    simp [rateRunW]
  | cons t ts ih =>
    intro w T hw hsorted
    have hsorted' : List.Sorted (· ≤ ·) ts := hsorted.of_cons
    have hts : ∀ x ∈ ts, t ≤ x := List.rel_of_sorted_cons hsorted
    have hrecent_sub : (w.filter (fun time => t - time < RATE_LIMIT_WINDOW)).Sublist w :=
      List.filter_sublist w
    have hrc_le : (w.filter (fun time => t - time < RATE_LIMIT_WINDOW)).countP (inWin T)
        ≤ w.countP (inWin T) := hrecent_sub.countP_le _
    by_cases hlim : RATE_LIMIT_MAX ≤
        (w.filter (fun time => t - time < RATE_LIMIT_WINDOW)).length
    · rw [rateRunW_cons_limited hlim]
      have hw' : ∀ a ∈ w.filter (fun time => t - time < RATE_LIMIT_WINDOW),
          ∀ x ∈ ts, a ≤ x :=
        fun a ha x hx => hw a (hrecent_sub.mem ha) x (List.mem_cons_of_mem _ hx)
      have ihr := ih (w.filter (fun time => t - time < RATE_LIMIT_WINDOW)) T hw' hsorted'
      rcases Nat.lt_or_ge
          ((w.filter (fun time => t - time < RATE_LIMIT_WINDOW)).countP (inWin T))
          (w.countP (inWin T)) with hlt | hge
      · obtain ⟨a, ha, hpa, hqa⟩ := countP_filter_lt_exists hlt
        have hwin : T ≤ a ∧ a < T + RATE_LIMIT_WINDOW := by
          simpa [inWin] using hpa
        have hold : ¬(t - a < RATE_LIMIT_WINDOW) := by
          simpa using hqa
        have hWpos : 0 < RATE_LIMIT_WINDOW := by
          simp [RATE_LIMIT_WINDOW]
        have htW : T + RATE_LIMIT_WINDOW ≤ t := by omega
        have hzero : (rateRunW (w.filter (fun time => t - time < RATE_LIMIT_WINDOW)) ts).countP
            (inWin T) = 0 :=
          rateRunW_countP_zero _ _ _ (fun x hx => le_trans htW (hts x hx))
        rw [hzero]
        exact le_max_right _ _
      · have heq : (w.filter (fun time => t - time < RATE_LIMIT_WINDOW)).countP (inWin T)
            = w.countP (inWin T) := le_antisymm hrc_le hge
        rw [← heq]
        exact ihr
    · rw [rateRunW_cons_admitted hlim]
      have hw' : ∀ a ∈ (w.filter (fun time => t - time < RATE_LIMIT_WINDOW)) ++ [t],
          ∀ x ∈ ts, a ≤ x := by
        intro a ha x hx
        rcases List.mem_append.mp ha with ha | ha
        · exact hw a (hrecent_sub.mem ha) x (List.mem_cons_of_mem _ hx)
        · rw [List.mem_singleton.mp ha]
          exact hts x hx
      have ihr := ih ((w.filter (fun time => t - time < RATE_LIMIT_WINDOW)) ++ [t]) T
        hw' hsorted'
      rw [List.countP_append, List.countP_singleton] at ihr
      rw [List.countP_cons]
      have hrc_len : (w.filter (fun time => t - time < RATE_LIMIT_WINDOW)).countP (inWin T)
          ≤ (w.filter (fun time => t - time < RATE_LIMIT_WINDOW)).length :=
        List.countP_le_length _
      have hsmall : (w.filter (fun time => t - time < RATE_LIMIT_WINDOW)).countP (inWin T)
          + (if inWin T t then 1 else 0) ≤ RATE_LIMIT_MAX := by
        by_cases hb : inWin T t
        · simp only [if_pos hb]
          omega
        · simp only [if_neg hb]
          omega
      have hmax : max RATE_LIMIT_MAX
          ((w.filter (fun time => t - time < RATE_LIMIT_WINDOW)).countP (inWin T)
            + (if inWin T t then 1 else 0)) = RATE_LIMIT_MAX := max_eq_left hsmall
      rw [hmax] at ihr
      rcases Nat.lt_or_ge
          ((w.filter (fun time => t - time < RATE_LIMIT_WINDOW)).countP (inWin T))
          (w.countP (inWin T)) with hlt | hge
      · obtain ⟨a, ha, hpa, hqa⟩ := countP_filter_lt_exists hlt
        have hwin : T ≤ a ∧ a < T + RATE_LIMIT_WINDOW := by
          simpa [inWin] using hpa
        have hold : ¬(t - a < RATE_LIMIT_WINDOW) := by
          simpa using hqa
        have hWpos : 0 < RATE_LIMIT_WINDOW := by
          simp [RATE_LIMIT_WINDOW]
        have htW : T + RATE_LIMIT_WINDOW ≤ t := by omega
        have hzero : (rateRunW ((w.filter (fun time => t - time < RATE_LIMIT_WINDOW)) ++ [t])
            ts).countP (inWin T) = 0 :=
          rateRunW_countP_zero _ _ _ (fun x hx => le_trans htW (hts x hx))
        have hbt : inWin T t = false := by
          simp only [inWin, Bool.and_eq_false_iff, decide_eq_false_iff_not]
          right
          omega
        rw [hzero, hbt]
        simp only [Bool.false_eq_true, if_false]
        have := le_max_right RATE_LIMIT_MAX (w.countP (inWin T))
        omega
      · have heq : (w.filter (fun time => t - time < RATE_LIMIT_WINDOW)).countP (inWin T)
            = w.countP (inWin T) := le_antisymm hrc_le hge
        rw [heq] at ihr
        have := le_max_left RATE_LIMIT_MAX (w.countP (inWin T))
        omega

/-- C3: `isRateLimited` reports limited exactly when at least 10 stored
timestamps are younger than 10000 ms, it replaces the stored window by the
filtered set even when no attempt is recorded afterwards, and along any
time-ordered run of check-then-record steps the admitted attempts falling in
any rolling window `[T, T + 10000)` never exceed 10. -/
theorem rateLimiter_admits_at_most_ten (st : ServerState) (sid : String) (now T : Nat)
    (ts : List Nat) (hts : List.Sorted (· ≤ ·) ts) :
    (isRateLimited st sid now).1
      = decide (RATE_LIMIT_MAX ≤
          ((windowOf st sid).filter (fun time => now - time < RATE_LIMIT_WINDOW)).length) ∧
    windowOf (isRateLimited st sid now).2 sid
      = (windowOf st sid).filter (fun time => now - time < RATE_LIMIT_WINDOW) ∧
    (rateRun initialState sid ts).countP (inWin T) ≤ RATE_LIMIT_MAX := by
  refine ⟨isRateLimited_fst st sid now, windowOf_isRateLimited st sid now, ?_⟩
  rw [rateRun_eq_rateRunW]
  have hwin : windowOf initialState sid = [] := rfl
  rw [hwin]
  have hb := rateRunW_window_bound ts [] T (fun a ha => absurd ha (List.not_mem_nil a)) hts
  simpa using hb

/-- Witness for C3 at a concrete time-ordered run. -/
theorem rateLimiter_admits_at_most_ten_inst :
    (rateRun initialState "s1" [0, 1, 2, 3]).countP (inWin 0) ≤ RATE_LIMIT_MAX :=
  (rateLimiter_admits_at_most_ten initialState "s1" 0 0 [0, 1, 2, 3] (by decide)).2.2

/-! ### What each handler leaves untouched. -/

theorem chatMessageHandler_users (st : ServerState) (sid : String) (d : JSVal) (now : Nat) :
    ((chatMessageHandler st sid d now).1).users = st.users := by
  unfold chatMessageHandler
  cases hm : mapGet st.users sid
  · rfl
  · simp only []
    split
    · simp [isRateLimited]
    · split
      · simp [isRateLimited]
      · simp [addMessageToHistory, addRateLimitTimestamp, isRateLimited]

theorem privateMessageHandler_users (st : ServerState) (sid : String) (d : JSVal)
    (target : String) (now : Nat) :
    ((privateMessageHandler st sid d target now).1).users = st.users := by
  unfold privateMessageHandler
  cases hm : mapGet st.users sid
  · rfl
  · simp only []
    cases ht : mapGet st.users target
    · rfl
    · simp only []
      split
      · simp [isRateLimited]
      · simp [addRateLimitTimestamp, isRateLimited]

theorem typingHandler_users (st : ServerState) (sid : String) (b : Bool) :
    ((typingHandler st sid b).1).users = st.users := by
  unfold typingHandler
  cases hm : mapGet st.users sid <;> rfl

theorem getUsersHandler_users (st : ServerState) (sid : String) :
    ((getUsersHandler st sid).1).users = st.users := by
  unfold getUsersHandler
  cases hm : mapGet st.users sid <;> rfl

theorem getRoomsHandler_users (st : ServerState) (sid : String) :
    ((getRoomsHandler st sid).1).users = st.users := rfl

theorem joinHandler_messageHistory (st : ServerState) (sid : String) (du dr : JSVal)
    (now : Nat) :
    ((joinHandler st sid du dr now).1).messageHistory = st.messageHistory := by
  by_cases h1 : sanitizeInput du = "" ∨ (sanitizeInput du).length < 2
  · simp [joinHandler, h1]
  · simp only [joinHandler]
    rw [if_neg h1]
    split
    · rfl
    · rfl

theorem privateMessageHandler_messageHistory (st : ServerState) (sid : String) (d : JSVal)
    (target : String) (now : Nat) :
    ((privateMessageHandler st sid d target now).1).messageHistory = st.messageHistory := by
  unfold privateMessageHandler
  cases hm : mapGet st.users sid
  · rfl
  · simp only []
    cases ht : mapGet st.users target
    · rfl
    · simp only []
      split
      · simp [isRateLimited]
      · simp [addRateLimitTimestamp, isRateLimited]

theorem typingHandler_messageHistory (st : ServerState) (sid : String) (b : Bool) :
    ((typingHandler st sid b).1).messageHistory = st.messageHistory := by
  unfold typingHandler
  cases hm : mapGet st.users sid <;> rfl

theorem changeRoomHandler_messageHistory (st : ServerState) (sid : String) (dr : JSVal)
    (now : Nat) :
    ((changeRoomHandler st sid dr now).1).messageHistory = st.messageHistory := by
  unfold changeRoomHandler
  cases hm : mapGet st.users sid with
  | none => rfl
  | some user =>
    by_cases h : user.room = defaultRoom (sanitizeInput dr)
    · simp [h]
    · simp [h]

theorem disconnectHandler_messageHistory (st : ServerState) (sid : String) (now : Nat) :
    ((disconnectHandler st sid now).1).messageHistory = st.messageHistory := by
  unfold disconnectHandler
  cases hm : mapGet st.users sid <;> rfl

theorem getUsersHandler_messageHistory (st : ServerState) (sid : String) :
    ((getUsersHandler st sid).1).messageHistory = st.messageHistory := by
  unfold getUsersHandler
  cases hm : mapGet st.users sid <;> rfl

theorem getRoomsHandler_messageHistory (st : ServerState) (sid : String) :
    ((getRoomsHandler st sid).1).messageHistory = st.messageHistory := rfl

/-! ### Every stored history message has type "user" (claim C9). -/

/-- Invariant: every message in every room's history buffer has type `"user"`. -/
def HistAllUser (st : ServerState) : Prop :=
  ∀ room, (getMessageHistory st room).all (fun m => m.type = "user") = true

theorem getMessageHistory_congr {st st' : ServerState}
    (h : st'.messageHistory = st.messageHistory) (room : String) :
    getMessageHistory st' room = getMessageHistory st room := by
  simp [getMessageHistory, h]

theorem chatMessageHandler_histInv (st : ServerState) (sid : String) (d : JSVal) (now : Nat)
    (h : HistAllUser st) : HistAllUser ((chatMessageHandler st sid d now).1) := by
  unfold chatMessageHandler
  cases hm : mapGet st.users sid with
  | none => exact h
  | some user =>
    simp only []
    split
    · exact h
    · split
      · exact h
      · intro room
        by_cases hr : room = user.room
        · subst hr
          rw [getMessageHistory_add_self]
          have hst2 : getMessageHistory (addRateLimitTimestamp (isRateLimited st sid now).2
              sid now) user.room = getMessageHistory st user.room := rfl
          rw [hst2]
          simp only [List.all_append, Bool.and_eq_true]
          constructor
          · split
            · rw [List.all_eq_true]
              intro m hmem
              exact List.all_eq_true.mp (h user.room) m (List.mem_of_mem_tail hmem)
            · exact h user.room
          · simp
        · rw [getMessageHistory_add_ne _ _ _ _ hr]
          exact h room

theorem step_histInv (st : ServerState) (e : Event) (h : HistAllUser st) :
    HistAllUser (step st e).1 := by
  have hcongr : ∀ (st' : ServerState), st'.messageHistory = st.messageHistory →
      HistAllUser st' := by
    intro st' hmh room
    rw [getMessageHistory_congr hmh room]
    exact h room
  cases e with
  | join sid du dr now => exact hcongr _ (joinHandler_messageHistory st sid du dr now)
  | chat_message sid d now => exact chatMessageHandler_histInv st sid d now h
  | private_message sid d target now =>
    exact hcongr _ (privateMessageHandler_messageHistory st sid d target now)
  | typing sid b => exact hcongr _ (typingHandler_messageHistory st sid b)
  | change_room sid dr now => exact hcongr _ (changeRoomHandler_messageHistory st sid dr now)
  | disconnect sid now => exact hcongr _ (disconnectHandler_messageHistory st sid now)
  | get_users sid => exact hcongr _ (getUsersHandler_messageHistory st sid)
  | get_rooms sid => exact hcongr _ (getRoomsHandler_messageHistory st sid)

/-- C9: in every state reachable by a sequence of inbound events, every
message stored in any room's history buffer has type `"user"`: only the
`chat_message` handler appends to history, and it only appends user
messages; system notices and private messages never enter the buffers. -/
theorem history_messages_all_user_type (es : List Event) (room : String) :
    (getMessageHistory (runEvents initialState es) room).all
      (fun m => m.type = "user") = true := by
  have hrun : ∀ (es : List Event) (st : ServerState),
      HistAllUser st → HistAllUser (runEvents st es) := by
    intro es
    induction es with
    | nil => intro st h; exact h
    | cons e es ih => intro st h; exact ih _ (step_histInv st e h)
  have hinit : HistAllUser initialState := by
    intro r
    rfl
  exact hrun es initialState hinit room

/-! ### An empty message is silently dropped (claim C5). -/

/-- C5: for a joined, not-rate-limited connection, a `chat_message` whose
text sanitizes to the empty string produces no emit at all (no error, no
broadcast) and leaves users, history and channels unchanged; the only state
change is the lazy compaction of the sender's rate window performed by
`isRateLimited`, with no attempt recorded. -/
theorem chatMessage_empty_silent_drop (st : ServerState) (sid : String) (user : User)
    (d : JSVal) (now : Nat)
    (h1 : mapGet st.users sid = some user)
    (h2 : (isRateLimited st sid now).1 = false)
    (h3 : sanitizeInput d = "") :
    chatMessageHandler st sid d now = ((isRateLimited st sid now).2, []) ∧
    ((isRateLimited st sid now).2).users = st.users ∧
    ((isRateLimited st sid now).2).messageHistory = st.messageHistory ∧
    ((isRateLimited st sid now).2).channels = st.channels ∧
    ((isRateLimited st sid now).2).rateLimitMap
      = mapSet st.rateLimitMap sid
          ((windowOf st sid).filter (fun time => now - time < RATE_LIMIT_WINDOW)) := by
  refine ⟨?_, rfl, rfl, rfl, rfl⟩
  unfold chatMessageHandler
  rw [h1]
  simp [h2, h3]

/-- Witness for C5: a joined user sending pure whitespace. -/
theorem chatMessage_empty_silent_drop_inst :
    chatMessageHandler (runEvents initialState [Event.join "s1" (JSVal.str "ab") (JSVal.str "r") 0])
        "s1" (JSVal.str "   ") 5
      = ((isRateLimited (runEvents initialState
            [Event.join "s1" (JSVal.str "ab") (JSVal.str "r") 0]) "s1" 5).2, []) :=
  (chatMessage_empty_silent_drop _ "s1" ⟨"ab", "r", "s1"⟩ (JSVal.str "   ") 5
    (by decide) (by decide) (by decide)).1

/-! ### Join rejections leave all state unchanged (claim C6). -/

/-- C6: a `join` whose sanitized username is shorter than 2 characters, or
whose sanitized username is already taken in the (defaulted) target room, is
answered with a single `error` emit to the requesting connection only, and
the state — presence registry, history store, rate windows, channels — is
returned unchanged. -/
theorem join_rejection_state_unchanged (st : ServerState) (sid : String) (du dr : JSVal)
    (now : Nat) :
    ((sanitizeInput du).length < 2 →
      joinHandler st sid du dr now
        = (st, [Emit.toSocket sid "error" (Payload.errorMsg errUsernameTooShort)])) ∧
    (2 ≤ (sanitizeInput du).length →
      isUsernameAvailable st (sanitizeInput du) (defaultRoom (sanitizeInput dr)) = false →
      joinHandler st sid du dr now
        = (st, [Emit.toSocket sid "error" (Payload.errorMsg errUsernameTaken)])) := by
  constructor
  · intro h
    have hcond : sanitizeInput du = "" ∨ (sanitizeInput du).length < 2 := Or.inr h
    simp [joinHandler, hcond]
  · intro h hav
    have hcond : ¬(sanitizeInput du = "" ∨ (sanitizeInput du).length < 2) := by
      push_neg
      refine ⟨?_, by omega⟩
      intro he
      rw [he] at h
      simp at h
    simp [joinHandler, hcond, hav]

/-- Witness for C6: a one-letter username is rejected, and a username already
taken in the defaulted room `"general"` is rejected, both without touching
the state. -/
theorem join_rejection_state_unchanged_inst :
    joinHandler initialState "s1" (JSVal.str "a") (JSVal.str "") 0
      = (initialState, [Emit.toSocket "s1" "error" (Payload.errorMsg errUsernameTooShort)]) ∧
    joinHandler (runEvents initialState [Event.join "s1" (JSVal.str "ab") (JSVal.str "") 0])
        "s2" (JSVal.str "ab") (JSVal.str "") 0
      = (runEvents initialState [Event.join "s1" (JSVal.str "ab") (JSVal.str "") 0],
         [Emit.toSocket "s2" "error" (Payload.errorMsg errUsernameTaken)]) :=
  ⟨(join_rejection_state_unchanged initialState "s1" (JSVal.str "a") (JSVal.str "") 0).1
      (by decide),
   (join_rejection_state_unchanged
      (runEvents initialState [Event.join "s1" (JSVal.str "ab") (JSVal.str "") 0])
      "s2" (JSVal.str "ab") (JSVal.str "") 0).2 (by decide) (by decide)⟩

/-! ### Disconnect cleanup (claim C7). -/

theorem mem_mapDelete_ne {α : Type} (p : String × α) (m : List (String × α)) (k : String)
    (h : p ∈ mapDelete m k) : p.1 ≠ k := by
  induction m with
  | nil => simp [mapDelete] at h
  | cons q rest ih =>
    by_cases hq : q.1 = k
    · simp only [mapDelete, if_pos hq] at h
      exact ih h
    · simp only [mapDelete, if_neg hq, List.mem_cons] at h
      rcases h with h | h
      · rw [h]
        exact hq
      · exact ih h

theorem channelClear_idem (chs : List (String × String)) (sid : String) :
    channelClear (channelClear chs sid) sid = channelClear chs sid := by
  simp [channelClear, List.filter_filter]

theorem disconnectHandler_users (st : ServerState) (sid : String) (now : Nat) :
    ((disconnectHandler st sid now).1).users = mapDelete st.users sid := by
  unfold disconnectHandler
  cases hm : mapGet st.users sid
  · simp only []
    exact (mapDelete_of_mapGet_none st.users sid hm).symm
  · rfl

theorem disconnectHandler_rateLimitMap (st : ServerState) (sid : String) (now : Nat) :
    ((disconnectHandler st sid now).1).rateLimitMap = mapDelete st.rateLimitMap sid := by
  unfold disconnectHandler
  cases hm : mapGet st.users sid
  · rfl
  · rfl

theorem disconnectHandler_channels_clear (st : ServerState) (sid : String) (now : Nat) :
    channelClear ((disconnectHandler st sid now).1).channels sid
      = ((disconnectHandler st sid now).1).channels := by
  unfold disconnectHandler
  cases hm : mapGet st.users sid
  · simp only []
    exact channelClear_idem st.channels sid
  · simp only []
    exact channelClear_idem st.channels sid

/-- C7: `disconnect` removes the connection's user from the presence registry
(so it appears in no room's user list any more), unconditionally deletes the
connection's rate window, leaves the history store alone, and a second
`disconnect` of the same connection is a no-op: it returns the state
unchanged and emits nothing. -/
theorem disconnect_idempotent_cleanup (st : ServerState) (sid : String) (now now2 : Nat) :
    ((disconnectHandler st sid now).1).users = mapDelete st.users sid ∧
    ((disconnectHandler st sid now).1).rateLimitMap = mapDelete st.rateLimitMap sid ∧
    ((disconnectHandler st sid now).1).messageHistory = st.messageHistory ∧
    mapGet ((disconnectHandler st sid now).1).users sid = none ∧
    mapGet ((disconnectHandler st sid now).1).rateLimitMap sid = none ∧
    (∀ room, ((getUsersInRoom (disconnectHandler st sid now).1 room).all
        (fun u => !(u.socketId = sid))) = true) ∧
    disconnectHandler ((disconnectHandler st sid now).1) sid now2
      = ((disconnectHandler st sid now).1, []) := by
  have husers := disconnectHandler_users st sid now
  have hrate := disconnectHandler_rateLimitMap st sid now
  have hchan := disconnectHandler_channels_clear st sid now
  have hgetu : mapGet ((disconnectHandler st sid now).1).users sid = none := by
    rw [husers]
    exact mapGet_mapDelete_self _ _
  have hgetr : mapGet ((disconnectHandler st sid now).1).rateLimitMap sid = none := by
    rw [hrate]
    exact mapGet_mapDelete_self _ _
  refine ⟨husers, hrate, disconnectHandler_messageHistory st sid now, hgetu, hgetr, ?_, ?_⟩
  · intro room
    rw [List.all_eq_true]
    intro u hu
    unfold getUsersInRoom at hu
    rw [husers] at hu
    obtain ⟨p, hp, rfl⟩ := List.mem_map.mp hu
    have hpm := (List.mem_filter.mp hp).1
    have hne := mem_mapDelete_ne p st.users sid hpm
    simpa using hne
  · generalize hs : (disconnectHandler st sid now).1 = s at hgetu hgetr hchan
    unfold disconnectHandler
    rw [hgetu]
    simp only []
    rw [mapDelete_of_mapGet_none _ _ hgetr, hchan]

/-! ### A second join overwrites the registration (claim C10). -/

theorem channelMember_channelJoin_self (chs : List (String × String)) (sid room : String) :
    channelMember (channelJoin chs sid room) sid room = true := by
  by_cases h : channelMember chs sid room = true
  · simp [channelJoin, h]
  · simp only [channelJoin, h, if_neg]
    simp [channelMember, List.any_append]

theorem channelMember_channelJoin_other (chs : List (String × String)) (sid room room' : String)
    (h : room' ≠ room) :
    channelMember (channelJoin chs sid room) sid room' = channelMember chs sid room' := by
  by_cases hm : channelMember chs sid room = true
  · simp [channelJoin, hm]
  · simp only [channelJoin, hm, if_neg]
    simp [channelMember, List.any_append, Ne.symm h]

/-- C10: a second `join` from an already-joined connection, with a valid and
available (sanitized) username for the (defaulted) target room, overwrites
the connection's presence entry and joins the target room channel; it emits
history, a join notice, the target room's user list and a confirmation — no
`user_left` notice, and (when the target differs from the previous room)
nothing at all to the previous room, whose channel membership and history
are untouched. -/
theorem rejoin_overwrite_no_old_room_broadcast (st : ServerState) (sid : String) (user : User)
    (du dr : JSVal) (now : Nat)
    (_h1 : mapGet st.users sid = some user)
    (h2 : 2 ≤ (sanitizeInput du).length)
    (h3 : isUsernameAvailable st (sanitizeInput du) (defaultRoom (sanitizeInput dr)) = true) :
    (joinHandler st sid du dr now).1
      = { st with
          channels := channelJoin st.channels sid (defaultRoom (sanitizeInput dr)),
          users := mapSet st.users sid
            ⟨sanitizeInput du, defaultRoom (sanitizeInput dr), sid⟩ } ∧
    (joinHandler st sid du dr now).2
      = [Emit.toSocket sid "message_history"
           (Payload.history (getMessageHistory st (defaultRoom (sanitizeInput dr)))),
         Emit.toRoom (defaultRoom (sanitizeInput dr)) "user_joined"
           (Payload.msg ⟨"system", none, sanitizeInput du ++ " a rejoint le chat", now,
             some (defaultRoom (sanitizeInput dr)), none⟩),
         Emit.toRoom (defaultRoom (sanitizeInput dr)) "users_list"
           (Payload.usersList (getUsersInRoom (joinHandler st sid du dr now).1
             (defaultRoom (sanitizeInput dr)))),
         Emit.toSocket sid "join_success"
           (Payload.joinSuccess (sanitizeInput du) (defaultRoom (sanitizeInput dr))
             (getUsersInRoom (joinHandler st sid du dr now).1
               (defaultRoom (sanitizeInput dr))).length)] ∧
    mapGet ((joinHandler st sid du dr now).1).users sid
      = some ⟨sanitizeInput du, defaultRoom (sanitizeInput dr), sid⟩ ∧
    channelMember ((joinHandler st sid du dr now).1).channels sid
      (defaultRoom (sanitizeInput dr)) = true ∧
    (user.room ≠ defaultRoom (sanitizeInput dr) →
      channelMember ((joinHandler st sid du dr now).1).channels sid user.room
        = channelMember st.channels sid user.room) ∧
    ((joinHandler st sid du dr now).2).all (fun e => !(eventOf e = "user_left")) = true ∧
    (user.room ≠ defaultRoom (sanitizeInput dr) →
      ((joinHandler st sid du dr now).2).all (fun e => !(targetsRoom e user.room)) = true) ∧
    ((joinHandler st sid du dr now).1).messageHistory = st.messageHistory := by
  have hcond : ¬(sanitizeInput du = "" ∨ (sanitizeInput du).length < 2) := by
    push_neg
    refine ⟨?_, by omega⟩
    intro he
    rw [he] at h2
    simp at h2
  have hnotav : ¬((!isUsernameAvailable st (sanitizeInput du)
      (defaultRoom (sanitizeInput dr))) = true) := by
    simp [h3]
  refine ⟨?_, ?_, ?_, ?_, ?_, ?_, ?_, joinHandler_messageHistory st sid du dr now⟩
  · simp only [joinHandler]
    rw [if_neg hcond, if_neg hnotav]
  · simp only [joinHandler]
    rw [if_neg hcond, if_neg hnotav]
    simp [getMessageHistory]
  · simp only [joinHandler]
    rw [if_neg hcond, if_neg hnotav]
    exact mapGet_mapSet_self _ _ _
  · simp only [joinHandler]
    rw [if_neg hcond, if_neg hnotav]
    exact channelMember_channelJoin_self _ _ _
  · intro hne
    simp only [joinHandler]
    rw [if_neg hcond, if_neg hnotav]
    exact channelMember_channelJoin_other _ _ _ _ hne
  · simp only [joinHandler]
    rw [if_neg hcond, if_neg hnotav]
    simp [eventOf]
  · intro hne
    simp only [joinHandler]
    rw [if_neg hcond, if_neg hnotav]
    simp [targetsRoom, Ne.symm hne]

/-- Witness for C10: `s1` joined `"r1"` as `"ab"` and re-joins as `"cd"` in
`"r2"`: the registry entry is overwritten and the old channel membership is
untouched. -/
theorem rejoin_overwrite_no_old_room_broadcast_inst :
    mapGet ((joinHandler (runEvents initialState
        [Event.join "s1" (JSVal.str "ab") (JSVal.str "r1") 0])
        "s1" (JSVal.str "cd") (JSVal.str "r2") 1).1).users "s1"
      = some ⟨"cd", "r2", "s1"⟩ ∧
    channelMember ((joinHandler (runEvents initialState
        [Event.join "s1" (JSVal.str "ab") (JSVal.str "r1") 0])
        "s1" (JSVal.str "cd") (JSVal.str "r2") 1).1).channels "s1" "r1"
      = channelMember (runEvents initialState
        [Event.join "s1" (JSVal.str "ab") (JSVal.str "r1") 0]).channels "s1" "r1" := by
  have h := rejoin_overwrite_no_old_room_broadcast
    (runEvents initialState [Event.join "s1" (JSVal.str "ab") (JSVal.str "r1") 0])
    "s1" ⟨"ab", "r1", "s1"⟩ (JSVal.str "cd") (JSVal.str "r2") 1
    (by decide) (by decide) (by decide)
  exact ⟨h.2.2.1, h.2.2.2.2.1 (by decide)⟩

/-! ### Per-room username uniqueness (claim C1). -/

/-- No two registered users on distinct connections share a username within
one room. -/
def usersUnique (st : ServerState) : Prop :=
  ∀ p ∈ st.users, ∀ q ∈ st.users,
    p.1 ≠ q.1 → p.2.room = q.2.room → p.2.username ≠ q.2.username

theorem usersUnique_congr {st st' : ServerState} (he : st'.users = st.users)
    (h : usersUnique st) : usersUnique st' := by
  intro p hp q hq
  rw [he] at hp hq
  exact h p hp q hq

theorem isUsernameAvailable_spec {st : ServerState} {u r : String}
    (h : isUsernameAvailable st u r = true) :
    ∀ p ∈ st.users, ¬(p.2.username = u ∧ p.2.room = r) := by
  intro p hp hcon
  have := List.all_eq_true.mp h p hp
  simp [hcon.1, hcon.2] at this

theorem joinHandler_usersUnique (st : ServerState) (sid : String) (du dr : JSVal) (now : Nat)
    (h : usersUnique st) : usersUnique ((joinHandler st sid du dr now).1) := by
  by_cases h1 : sanitizeInput du = "" ∨ (sanitizeInput du).length < 2
  · simp only [joinHandler]
    rw [if_pos h1]
    exact h
  · by_cases h2 : isUsernameAvailable st (sanitizeInput du) (defaultRoom (sanitizeInput dr))
      = true
    · simp only [joinHandler]
      rw [if_neg h1, if_neg (by simp [h2])]
      intro p hp q hq hne hroom
      have hp' := mem_mapSet p st.users sid
        ⟨sanitizeInput du, defaultRoom (sanitizeInput dr), sid⟩ hp
      have hq' := mem_mapSet q st.users sid
        ⟨sanitizeInput du, defaultRoom (sanitizeInput dr), sid⟩ hq
      rcases hp' with hp' | hp' <;> rcases hq' with hq' | hq'
      · exfalso
        apply hne
        rw [hp', hq']
      · intro huser
        apply isUsernameAvailable_spec h2 q hq'
        rw [hp'] at hroom huser
        exact ⟨huser.symm, hroom.symm⟩
      · intro huser
        apply isUsernameAvailable_spec h2 p hp'
        rw [hq'] at hroom huser
        exact ⟨huser, hroom⟩
      · exact h p hp' q hq' hne hroom
    · have hav : isUsernameAvailable st (sanitizeInput du) (defaultRoom (sanitizeInput dr))
          = false := by
        cases hx : isUsernameAvailable st (sanitizeInput du) (defaultRoom (sanitizeInput dr))
        · rfl
        · exact absurd hx h2
      simp only [joinHandler]
      rw [if_neg h1, if_pos (by simp [hav])]
      exact h

theorem disconnectHandler_usersUnique (st : ServerState) (sid : String) (now : Nat)
    (h : usersUnique st) : usersUnique ((disconnectHandler st sid now).1) := by
  intro p hp q hq
  rw [disconnectHandler_users] at hp hq
  exact h p (mem_mapDelete p st.users sid hp) q (mem_mapDelete q st.users sid hq)

theorem step_usersUnique (st : ServerState) (e : Event) (hne : e.isChangeRoom = false)
    (h : usersUnique st) : usersUnique (step st e).1 := by
  cases e with
  | join sid du dr now => exact joinHandler_usersUnique st sid du dr now h
  | chat_message sid d now => exact usersUnique_congr (chatMessageHandler_users st sid d now) h
  | private_message sid d target now =>
    exact usersUnique_congr (privateMessageHandler_users st sid d target now) h
  | typing sid b => exact usersUnique_congr (typingHandler_users st sid b) h
  | change_room sid dr now => simp [Event.isChangeRoom] at hne
  | disconnect sid now => exact disconnectHandler_usersUnique st sid now h
  | get_users sid => exact usersUnique_congr (getUsersHandler_users st sid) h
  | get_rooms sid => exact usersUnique_congr (getRoomsHandler_users st sid) h

/-- C1 (amended): along any event sequence containing no `change_room`
event, every reachable state satisfies per-room username uniqueness.  The
claim as stated over all six event kinds fails, because `change_room` never
re-checks availability (see the counterexample). -/
theorem usersUnique_without_change_room (es : List Event)
    (h : es.all (fun e => !e.isChangeRoom) = true) :
    usersUnique (runEvents initialState es) := by
  have hrun : ∀ (es : List Event) (st : ServerState), usersUnique st →
      (∀ e ∈ es, e.isChangeRoom = false) → usersUnique (runEvents st es) := by
    intro es
    induction es with
    | nil => intro st hst _; exact hst
    | cons e es ih =>
      intro st hst hall
      exact ih _ (step_usersUnique st e (hall e (List.mem_cons_self _ _)) hst)
        (fun e' he' => hall e' (List.mem_cons_of_mem _ he'))
  apply hrun es initialState
  · intro p hp
    exact absurd hp (List.not_mem_nil p)
  · intro e he
    have := List.all_eq_true.mp h e he
    simpa using this

/-- Witness for C1's amended theorem on a concrete change_room-free trace. -/
theorem usersUnique_without_change_room_inst :
    usersUnique (runEvents initialState
      [Event.join "s1" (JSVal.str "ab") (JSVal.str "r1") 0,
       Event.join "s2" (JSVal.str "ab") (JSVal.str "r2") 1,
       Event.disconnect "s1" 2]) :=
  usersUnique_without_change_room
    [Event.join "s1" (JSVal.str "ab") (JSVal.str "r1") 0,
     Event.join "s2" (JSVal.str "ab") (JSVal.str "r2") 1,
     Event.disconnect "s1" 2] (by decide)

/-- Counterexample to C1 as stated: `"ab"` joins `"r1"`, a second connection
joins `"r2"` under the same name (allowed — uniqueness is per room), then
changes room to `"r1"`; `change_room` performs no availability check, so the
reachable state holds two Joined users named `"ab"` in room `"r1"`. -/
theorem usersUnique_change_room_violation :
    mapGet (runEvents initialState
      [Event.join "s1" (JSVal.str "ab") (JSVal.str "r1") 0,
       Event.join "s2" (JSVal.str "ab") (JSVal.str "r2") 1,
       Event.change_room "s2" (JSVal.str "r1") 2]).users "s1"
      = some ⟨"ab", "r1", "s1"⟩ ∧
    mapGet (runEvents initialState
      [Event.join "s1" (JSVal.str "ab") (JSVal.str "r1") 0,
       Event.join "s2" (JSVal.str "ab") (JSVal.str "r2") 1,
       Event.change_room "s2" (JSVal.str "r1") 2]).users "s2"
      = some ⟨"ab", "r1", "s2"⟩ ∧
    ¬ usersUnique (runEvents initialState
      [Event.join "s1" (JSVal.str "ab") (JSVal.str "r1") 0,
       Event.join "s2" (JSVal.str "ab") (JSVal.str "r2") 1,
       Event.change_room "s2" (JSVal.str "r1") 2]) := by
  refine ⟨by decide, by decide, ?_⟩
  intro hu
  exact hu ("s1", ⟨"ab", "r1", "s1"⟩) (by decide) ("s2", ⟨"ab", "r1", "s2"⟩)
    (by decide) (by decide) (by decide) rfl

/-! ### Round trip through the history buffer (claim C8). -/

/-- A join into room `"r"`, then 101 successfully sent chat messages, spaced
10000 ms apart so none is rate limited. -/
def evictionTrace : List Event :=
  Event.join "a" (JSVal.str "ab") (JSVal.str "r") 0 ::
    (List.range 101).map (fun i => Event.chat_message "a" (JSVal.str "x") ((i + 1) * 10000))

/-- The message object produced by the first of the 101 sends. -/
def evictedMessage : Message := ⟨"user", some "ab", "x", 10000, some "r", some "a"⟩

set_option maxRecDepth 1000000 in
/-- Counterexample to C8 as stated: the first message is successfully sent
(it is broadcast to the room), yet after 100 further appends a connection
joining the same room receives a `message_history` payload that no longer
contains it — the buffer evicted it. -/
theorem chat_roundtrip_eviction_cex :
    (step (runEvents initialState [Event.join "a" (JSVal.str "ab") (JSVal.str "r") 0])
        (Event.chat_message "a" (JSVal.str "x") 10000)).2
      = [Emit.toRoom "r" "received_message" (Payload.msg evictedMessage)] ∧
    ((step (runEvents initialState evictionTrace)
        (Event.join "b" (JSVal.str "cd") (JSVal.str "r") 9999999)).2).head?
      = some (Emit.toSocket "b" "message_history"
          (Payload.history (getMessageHistory (runEvents initialState evictionTrace) "r"))) ∧
    evictedMessage ∉ getMessageHistory (runEvents initialState evictionTrace) "r" :=
  ⟨by decide, by decide, by decide⟩

/-- C8 (amended): a successful `chat_message` broadcasts the sanitized text
verbatim and appends it to the sender's room history; a successful `join`
replays the room's current history as its first emit; and a message followed
by at most 99 later appends to the same room is retained verbatim in the
last-100 window, in append order, after the surviving prefix of the older
messages.  (With 100 or more later appends the message is evicted — the
original claim fails there, see the counterexample.) -/
theorem chat_roundtrip_bounded
    (st : ServerState) (sid : String) (user : User) (d : JSVal) (now : Nat)
    (st2 : ServerState) (sid2 : String) (du2 dr2 : JSVal) (now2 : Nat)
    (pre post : List Message) (mm : Message)
    (h1 : mapGet st.users sid = some user)
    (h2 : (isRateLimited st sid now).1 = false)
    (h3 : ¬ sanitizeInput d = "")
    (h4 : 2 ≤ (sanitizeInput du2).length)
    (h5 : isUsernameAvailable st2 (sanitizeInput du2) (defaultRoom (sanitizeInput dr2)) = true)
    (h6 : post.length ≤ 99) :
    (chatMessageHandler st sid d now).2
      = [Emit.toRoom user.room "received_message"
          (Payload.msg ⟨"user", some user.username, sanitizeInput d, now,
            some user.room, some sid⟩)] ∧
    getMessageHistory (chatMessageHandler st sid d now).1 user.room
      = (if 100 ≤ (getMessageHistory st user.room).length
          then (getMessageHistory st user.room).tail
          else getMessageHistory st user.room)
        ++ [⟨"user", some user.username, sanitizeInput d, now, some user.room, some sid⟩] ∧
    ((joinHandler st2 sid2 du2 dr2 now2).2).head?
      = some (Emit.toSocket sid2 "message_history"
          (Payload.history (getMessageHistory st2 (defaultRoom (sanitizeInput dr2))))) ∧
    lastMessages (pre ++ mm :: post)
      = pre.drop (pre.length + 1 + post.length - 100) ++ mm :: post := by
  have hsucc : (chatMessageHandler st sid d now).1
      = addMessageToHistory (addRateLimitTimestamp (isRateLimited st sid now).2 sid now)
          user.room ⟨"user", some user.username, sanitizeInput d, now,
            some user.room, some sid⟩ := by
    unfold chatMessageHandler
    rw [h1]
    simp [h2, h3]
  refine ⟨?_, ?_, ?_, ?_⟩
  · unfold chatMessageHandler
    rw [h1]
    simp [h2, h3]
  · rw [hsucc, getMessageHistory_add_self]
    have hsame : getMessageHistory (addRateLimitTimestamp (isRateLimited st sid now).2 sid now)
        user.room = getMessageHistory st user.room := rfl
    rw [hsame]
  · have hcond : ¬(sanitizeInput du2 = "" ∨ (sanitizeInput du2).length < 2) := by
      push_neg
      refine ⟨?_, by omega⟩
      intro he
      rw [he] at h4
      simp at h4
    have hnotav : ¬((!isUsernameAvailable st2 (sanitizeInput du2)
        (defaultRoom (sanitizeInput dr2))) = true) := by
      simp [h5]
    simp only [joinHandler]
    rw [if_neg hcond, if_neg hnotav]
    simp [getMessageHistory]
  · unfold lastMessages
    rw [List.length_append, List.length_cons,
      show pre.length + (post.length + 1) - 100 = pre.length + 1 + post.length - 100 from
        by omega]
    exact List.drop_append_of_le_length (by omega)

/-- Witness for C8's amended theorem: a fresh room, one sent message, no
later appends. -/
theorem chat_roundtrip_bounded_inst :
    (chatMessageHandler (runEvents initialState
        [Event.join "a" (JSVal.str "ab") (JSVal.str "r") 0]) "a" (JSVal.str "hi") 5).2
      = [Emit.toRoom "r" "received_message"
          (Payload.msg ⟨"user", some "ab", "hi", 5, some "r", some "a"⟩)] ∧
    lastMessages [(⟨"user", some "ab", "hi", 5, some "r", some "a"⟩ : Message)]
      = [(⟨"user", some "ab", "hi", 5, some "r", some "a"⟩ : Message)] := by
  have h := chat_roundtrip_bounded
    (runEvents initialState [Event.join "a" (JSVal.str "ab") (JSVal.str "r") 0])
    "a" ⟨"ab", "r", "a"⟩ (JSVal.str "hi") 5
    initialState "b" (JSVal.str "cd") (JSVal.str "r") 7
    [] [] ⟨"user", some "ab", "hi", 5, some "r", some "a"⟩
    (by decide) (by decide) (by decide) (by decide) (by decide) (by decide)
  exact ⟨h.1, h.2.2.2⟩

end ChatServer
